import Mathlib

/-!
Verification of the nutrient-dws-client-python request-construction layer.

The Python sources embedded here are:
- `src/nutrient_dws/file_handler.py` (input normalization, output saving)
- `src/nutrient_dws/api/direct.py` (delete/duplicate/split/merge page ops)
- `src/nutrient/client.py` (API-key resolution)
- `src/nutrient/http_client.py` (retry configuration `_create_session`)

The modules `nutrient_dws/builder.py` and `nutrient_dws/http_client.py` are
exercised by the repository's unit tests but their sources are not in the
tree; where a definition models one of them it is marked
`Modelled from the spec:` in its doc comment.

Conventions: Python byte strings are `List Nat`; Python dicts are ordered
association lists; Python exceptions are an `Err` sum carried by `Except`;
filesystem and network are explicit parameters; observable side effects
(multipart uploads, POSTs, directory creation, file writes) are recorded in
an `Event` trace returned alongside the result.
-/

namespace NDW

/-- Python `bytes` values, one `Nat` per byte. -/
abbrev Bytes := List Nat

/-- The error taxonomy of `nutrient_dws.exceptions` plus the built-in Python
errors the code raises (`FileNotFoundError`, `ValueError`). -/
inductive Err where
  | authenticationError (msg : String)
  | validationError (msg : String) (errors : List (String × List String))
  | apiError (msg : String) (status : Nat) (body : Bytes) (requestId : Option String)
  | timeoutError (msg : String)
  | fileNotFound (msg : String)
  | unsupportedInput (msg : String)
  | valueError (msg : String)
deriving DecidableEq

/-- A `pages` dictionary inside a Part, e.g. `{"start": 1, "end": 2}`:
an ordered association list, as Python dict literals are. -/
abbrev PagesDict := List (String × Int)

/-- One entry of the `parts` list of an instruction document:
`{"file": name}` optionally with a `"pages"` sub-dictionary. -/
structure Part where
  file : String
  pages : Option PagesDict
deriving DecidableEq

/-- Values appearing in tool options and in wire-level actions. -/
inductive OVal where
  | str (s : String)
  | int (n : Int)
  | intList (xs : List Int)
  | bool (b : Bool)
  | obj (fields : List (String × OVal))

/-- A wire-level Action: an ordered dictionary such as
`{"type": "rotate", "rotateBy": 180}`. -/
abbrev Action := List (String × OVal)

/-- The JSON instruction document sent to `POST /build`. -/
structure Instructions where
  parts : List Part
  actions : List Action

/-- Content placed in a multipart upload field: a materialized buffer, an
open file handle for a large on-disk file, or a caller-supplied stream. -/
inductive UploadContent where
  | buffer (b : Bytes)
  | fileHandle (path : String)
  | streamObj (name : Option String) (data : Bytes)
deriving DecidableEq

/-- The `(filename, content_or_stream, content_type)` triple built by
`prepare_file_for_upload`. -/
abbrev UploadTuple := String × UploadContent × String

/-- Heterogeneous file input accepted by the client: a filesystem path,
raw bytes, or an open file-like object. -/
inductive FileInput where
  | path (p : String)
  | bytes (b : Bytes)
  | stream (name : Option String) (data : Bytes)
deriving DecidableEq

/-- Filesystem metadata and content for one existing file. `size` is what
`path.stat().st_size` reports; `content` is what `path.read_bytes()` reads. -/
structure FileMeta where
  size : Nat
  content : Bytes
deriving DecidableEq

/-- The filesystem: a partial map from path strings to files. -/
abbrev FS := String → Option FileMeta

/-- Observable side effects of one operation, in program order. -/
inductive Event where
  | prepared (field : String) (filename : String)
  | posted (endpoint : String) (files : List (String × UploadTuple)) (instructions : Instructions)
  | mkdirParents (dir : String)
  | wrote (path : String) (content : Bytes)

/-- The transport: sends one multipart POST carrying the file fields and the
JSON instruction document, returning response bytes or a typed error. -/
abbrev Post := List (String × UploadTuple) → Instructions → Except Err Bytes

/-- `str.rsplit("/")[-1]`, modelling `pathlib.Path(p).name`. -/
def baseName (p : String) : String :=
  (p.splitOn "/").getLastD p

/-- `pathlib.Path(p).parent` as a string, for `mkdir(parents=True)` events. -/
def parentDir (p : String) : String :=
  String.intercalate "/" ((p.splitOn "/").dropLast)

/-- `file_handler.prepare_file_for_upload`: path inputs must exist; a file
strictly larger than 10 MiB (per `stat` metadata) is returned as an open
handle, otherwise its bytes are read; `bytes` input passes through with the
placeholder filename; file-like objects pass through with their name's
basename. -/
def prepare_file_for_upload (fs : FS) (file_input : FileInput) (field_name : String) :
    Except Err (String × UploadTuple) :=
  match file_input with
  | .path p =>
    match fs p with
    | none => .error (.fileNotFound ("File not found: " ++ p))
    | some meta =>
      if meta.size > 10 * 1024 * 1024 then
        .ok (field_name, (baseName p, .fileHandle p, "application/octet-stream"))
      else
        .ok (field_name, (baseName p, .buffer meta.content, "application/octet-stream"))
  | .bytes b => .ok (field_name, ("document", .buffer b, "application/octet-stream"))
  | .stream name data =>
    .ok (field_name,
      ((match name with | some n => baseName n | none => "document"),
        .streamObj name data, "application/octet-stream"))

/-- `file_handler.save_file_output`: create parent directories, then write
the content. Returned as the event trace it produces. -/
def save_file_output (content : Bytes) (output_path : String) : List Event :=
  [.mkdirParents (parentDir output_path), .wrote output_path content]

/-- `{"file": "file", "pages": {"start": a, "end": b}}`. -/
def closedPart (a b : Int) : Part :=
  { file := "file", pages := some [("start", a), ("end", b)] }

/-- `{"file": "file", "pages": {"start": a}}` — a range open towards the end
of the document. -/
def openPart (a : Int) : Part :=
  { file := "file", pages := some [("start", a)] }

/-- `sorted(set(page_indexes))`: the distinct indexes in ascending order. -/
def sortedDedup (l : List Int) : List Int :=
  (List.insertionSort (· ≤ ·) l).dedup

/-- The page-keeping loop of `delete_pdf_pages`: walk the sorted deleted
indexes, emit one closed range per non-empty gap, skip negative indexes,
and return the parts together with the final `current_page`. -/
def keep_loop (current_page : Int) : List Int → List Part × Int
  | [] => ([], current_page)
  | delete_index :: rest =>
    if delete_index < 0 then keep_loop current_page rest
    else
      let tail := keep_loop (delete_index + 1) rest
      ((if current_page < delete_index then [closedPart current_page delete_index] else []) ++
        tail.1, tail.2)

/-- The parts computation of `delete_pdf_pages`: sort and de-duplicate,
build complement ranges, append the final open range, and reject negative
indexes. (When a negative index is present the code rebuilds `parts` from
the non-negative indexes but then re-tests the same `any` condition and
raises, so the rebuilt list is discarded.) -/
def delete_parts (page_indexes : List Int) : Except Err (List Part) :=
  let sorted_indexes := sortedDedup page_indexes
  let st := keep_loop 0 sorted_indexes
  let parts := st.1 ++ (if 0 ≤ st.2 then [openPart st.2] else [])
  if page_indexes.any (fun idx => idx < 0) then
    .error (.valueError ("Negative page indexes not yet supported for deletion: " ++
      toString (page_indexes.filter (fun idx => idx < 0))))
  else if parts.isEmpty then
    .error (.valueError "No valid pages to keep after deletion")
  else
    .ok parts

/-- `direct.delete_pdf_pages`: validate, prepare the upload, build the
complement parts, post `/build`, and return or save the result. -/
def delete_pdf_pages (fs : FS) (post : Post) (input_file : FileInput)
    (page_indexes : List Int) (output_path : Option String) :
    List Event × Except Err (Option Bytes) :=
  if page_indexes.isEmpty then
    ([], .error (.valueError "page_indexes cannot be empty"))
  else
    match prepare_file_for_upload fs input_file "file" with
    | .error e => ([], .error e)
    | .ok (file_field, file_data) =>
      let files := [(file_field, file_data)]
      let ev0 := [Event.prepared file_field file_data.1]
      match delete_parts page_indexes with
      | .error e => (ev0, .error e)
      | .ok parts =>
        let instructions : Instructions := ⟨parts, []⟩
        let ev1 := ev0 ++ [Event.posted "/build" files instructions]
        match post files instructions with
        | .error e => (ev1, .error e)
        | .ok result =>
          match output_path with
          | some p => (ev1 ++ save_file_output result p, .ok none)
          | none => (ev1, .ok (some result))

/-- The parts loop of `duplicate_pdf_pages`: one single-page range per
index, in caller order; the source's negative/non-negative branches build
the identical dictionary. -/
def duplicate_parts (page_indexes : List Int) : List Part :=
  page_indexes.map fun page_index =>
    if page_index < 0 then closedPart page_index page_index
    else closedPart page_index page_index

/-- `direct.duplicate_pdf_pages`. -/
def duplicate_pdf_pages (fs : FS) (post : Post) (input_file : FileInput)
    (page_indexes : List Int) (output_path : Option String) :
    List Event × Except Err (Option Bytes) :=
  if page_indexes.isEmpty then
    ([], .error (.valueError "page_indexes cannot be empty"))
  else
    match prepare_file_for_upload fs input_file "file" with
    | .error e => ([], .error e)
    | .ok (file_field, file_data) =>
      let files := [(file_field, file_data)]
      let ev0 := [Event.prepared file_field file_data.1]
      let instructions : Instructions := ⟨duplicate_parts page_indexes, []⟩
      let ev1 := ev0 ++ [Event.posted "/build" files instructions]
      match post files instructions with
      | .error e => (ev1, .error e)
      | .ok result =>
        match output_path with
        | some p => (ev1 ++ save_file_output result p, .ok none)
        | none => (ev1, .ok (some result))

/-- Python truthiness of an optional list argument: `None` and `[]` are
falsy. -/
def truthyList {α : Type} (l : Option (List α)) : Bool :=
  match l with
  | none => false
  | some xs => !xs.isEmpty

/-- The per-range loop of `split_pdf`: each range re-prepares the input,
posts one `/build` request with a single scoped part, and either saves to
the matching output path or accumulates the bytes. `i` is the enumeration
index. -/
def split_loop (fs : FS) (post : Post) (input_file : FileInput)
    (output_paths : Option (List String)) (i : Nat) :
    List PagesDict → List Event × Except Err (List Bytes)
  | [] => ([], .ok [])
  | page_range :: rest =>
    match prepare_file_for_upload fs input_file "file" with
    | .error e => ([], .error e)
    | .ok (file_field, file_data) =>
      let files := [(file_field, file_data)]
      let ev0 := [Event.prepared file_field file_data.1]
      let instructions : Instructions := ⟨[{ file := "file", pages := some page_range }], []⟩
      let ev1 := ev0 ++ [Event.posted "/build" files instructions]
      match post files instructions with
      | .error e => (ev1, .error e)
      | .ok result =>
        match output_paths with
        | some paths =>
          if h : i < paths.length then
            let evSave := save_file_output result (paths.get ⟨i, h⟩)
            let next := split_loop fs post input_file output_paths (i + 1) rest
            (ev1 ++ evSave ++ next.1, next.2)
          else
            let next := split_loop fs post input_file output_paths (i + 1) rest
            (ev1 ++ next.1, (next.2).map (fun rs => result :: rs))
        | none =>
          let next := split_loop fs post input_file output_paths (i + 1) rest
          (ev1 ++ next.1, (next.2).map (fun rs => result :: rs))

/-- `direct.split_pdf`: length-validate, default missing or empty
`page_ranges` to the single range `{"start": 0, "end": 1}`, run the loop,
and return the collected byte results (empty when `output_paths` given). -/
def split_pdf (fs : FS) (post : Post) (input_file : FileInput)
    (page_ranges : Option (List PagesDict)) (output_paths : Option (List String)) :
    List Event × Except Err (List Bytes) :=
  if truthyList output_paths ∧ truthyList page_ranges ∧
      (output_paths.getD []).length ≠ (page_ranges.getD []).length then
    ([], .error (.valueError "output_paths length must match page_ranges length"))
  else
    let ranges :=
      if truthyList page_ranges then page_ranges.getD []
      else [[("start", 0), ("end", 1)]]
    let r := split_loop fs post input_file output_paths 0 ranges
    (r.1, (r.2).map (fun rs => if truthyList output_paths then [] else rs))

/-- Little-endian decimal digits of `n`, computed with explicit fuel so the
definition is structural (the fuel `n` itself always suffices). -/
def decimalDigitsFuel : Nat → Nat → List Nat
  | 0, _ => []
  | fuel + 1, n => if n = 0 then [] else n % 10 :: decimalDigitsFuel fuel (n / 10)

/-- Little-endian decimal digits of `n`. -/
def decimalDigits (n : Nat) : List Nat :=
  decimalDigitsFuel n n

/-- Python `str(n)` for a natural number. -/
def decimalStr (n : Nat) : String :=
  match n with
  | 0 => "0"
  | _ => String.mk ((decimalDigits n).reverse.map Nat.digitChar)

/-- The multipart field name `f"file{i}"` used by `merge_pdfs`. -/
def mergeFieldName (i : Nat) : String :=
  "file" ++ decimalStr i

/-- The accumulation loop of `merge_pdfs`: for each input in caller order,
prepare it under the field name `file{i}` and add the Part `{"file":
"file{i}"}`; also records the `prepared` events in order. -/
def merge_loop (fs : FS) (input_files : List FileInput) (i : Nat) :
    Except Err (List Event × List (String × UploadTuple) × List Part) :=
  match input_files with
  | [] => .ok ([], [], [])
  | f :: rest =>
    let field_name := mergeFieldName i
    match prepare_file_for_upload fs f field_name with
    | .error e => .error e
    | .ok (file_field, file_data) =>
      match merge_loop fs rest (i + 1) with
      | .error e => .error e
      | .ok (evs, files, parts) =>
        .ok (Event.prepared file_field file_data.1 :: evs,
          (file_field, file_data) :: files,
          { file := field_name, pages := none } :: parts)

/-- `direct.merge_pdfs`: require at least two inputs, accumulate one file
field and one Part per input in caller order, post `/build`, and return or
save the merged bytes. -/
def merge_pdfs (fs : FS) (post : Post) (input_files : List FileInput)
    (output_path : Option String) : List Event × Except Err (Option Bytes) :=
  if input_files.length < 2 then
    ([], .error (.valueError "At least 2 files required for merge"))
  else
    match merge_loop fs input_files 0 with
    | .error e => ([], .error e)
    | .ok (evs, files, parts) =>
      let instructions : Instructions := ⟨parts, []⟩
      let ev1 := evs ++ [Event.posted "/build" files instructions]
      match post files instructions with
      | .error e => (ev1, .error e)
      | .ok result =>
        match output_path with
        | some p => (ev1 ++ save_file_output result p, .ok none)
        | none => (ev1, .ok (some result))

/-- Modelled from the spec: `nutrient_dws/builder.py` is not in the tree
(only its unit tests and callers are). Per spec §4.3, `add_step` translates
a tool name and flat options into one wire Action via a fixed per-tool
table: `rotate-pages{degrees, page_indexes?}` becomes `{type: rotate,
rotateBy, pageIndexes?}`; `ocr-pdf{language}` becomes `{type: ocr,
language}`; `watermark-pdf{text|image_url, opacity, position}` becomes
`{type: watermark, text|image:{url}, opacity, position}`;
`flatten-annotations` becomes `{type: flatten}`; unknown tools pass
through as `{type: tool, **options}`. -/
def translate_tool (tool : String) (options : List (String × OVal)) : Action :=
  if tool = "rotate-pages" then
    [("type", .str "rotate")] ++
      (match options.lookup "degrees" with
        | some v => [("rotateBy", v)] | none => []) ++
      (match options.lookup "page_indexes" with
        | some v => [("pageIndexes", v)] | none => [])
  else if tool = "ocr-pdf" then
    [("type", .str "ocr")] ++
      (match options.lookup "language" with
        | some v => [("language", v)] | none => [])
  else if tool = "watermark-pdf" then
    [("type", .str "watermark")] ++
      (match options.lookup "text" with
        | some v => [("text", v)]
        | none =>
          match options.lookup "image_url" with
          | some v => [("image", .obj [("url", v)])] | none => []) ++
      (match options.lookup "opacity" with
        | some v => [("opacity", v)] | none => []) ++
      (match options.lookup "position" with
        | some v => [("position", v)] | none => [])
  else if tool = "flatten-annotations" then
    [("type", .str "flatten")]
  else
    [("type", .str tool)] ++ options

/-- Modelled from the spec: the builder state of `nutrient_dws/builder.py`
(§3 BuilderState) — input file, accumulated parts, actions and output
options. -/
structure BuildAPIWrapper where
  input_file : FileInput
  parts : List Part
  actions : List Action
  output_options : List (String × OVal)

/-- Modelled from the spec: `BuildAPIWrapper.add_step(tool, options)`
records exactly one translated Action and returns the builder for
chaining. Python aliasing (`return self`) is modelled by returning the
updated state. -/
def add_step (b : BuildAPIWrapper) (tool : String)
    (options : Option (List (String × OVal)) := none) : BuildAPIWrapper :=
  { b with actions := b.actions ++ [translate_tool tool (options.getD [])] }

/-- A fresh builder over a byte input, as `client.build(...)` creates. -/
def emptyBuilder : BuildAPIWrapper :=
  { input_file := .bytes [], parts := [], actions := [], output_options := [] }

/-- One HTTP response as the transport sees it: status, raw body bytes,
plus the parsed JSON `message`/`errors` fields and the request-id header
when present. -/
structure HttpResponse where
  status : Nat
  body : Bytes
  message : Option String
  errors : Option (List (String × List String))
  requestId : Option String

/-- `NutrientClient.__init__` key resolution: `api_key or
os.environ.get("NUTRIENT_API_KEY")` — note Python's `or` treats the empty
string as falsy. -/
def resolveApiKey (api_key : Option String) (envKey : Option String) : Option String :=
  match api_key with
  | some s => if s = "" then envKey else some s
  | none => envKey

/-- The statuses retried by the session's urllib3 `Retry` configuration
(`status_forcelist` in `_create_session`). -/
def retryStatuses : List Nat := [429, 500, 502, 503, 504]

/-- `Retry(total=3, ...)`: up to three additional attempts. -/
def totalRetries : Nat := 3

/-- `Retry(backoff_factor=1, ...)`: base backoff of one second. -/
def backoffFactor : Nat := 1

/-- Modelled from the spec: the response classification of
`nutrient_dws/http_client.py` (not in the tree; §4.2 and the unit tests):
2xx returns the raw body; 401/403 raises `AuthenticationError` with the
parsed message when present; 422 raises `ValidationError` with the
field-error map; any other status of at least 400 raises `APIError`
carrying status, body and request-id. -/
def classifyResponse (r : HttpResponse) : Except Err Bytes :=
  if 200 ≤ r.status ∧ r.status < 300 then .ok r.body
  else if r.status = 401 ∨ r.status = 403 then
    .error (.authenticationError (r.message.getD "Authentication failed"))
  else if r.status = 422 then
    .error (.validationError (r.message.getD "Validation failed") (r.errors.getD []))
  else if 400 ≤ r.status then
    .error (.apiError (r.message.getD "API error") r.status r.body r.requestId)
  else .ok r.body

/-- Modelled from the spec: the urllib3 retry semantics configured by
`_create_session` — a response whose status is in the forcelist is retried
while additional attempts remain, sleeping `backoff_factor * 2^k` seconds
before the `k`-th retry (exponential backoff); otherwise the response is
final. `server n` is the response the server gives to the `n`-th attempt
(0-based). Returns (number of attempts made, sleeps, final response). -/
def retrySend (server : Nat → HttpResponse) : Nat → Nat → Nat × List Nat × HttpResponse
  | attempt, 0 => (attempt + 1, [], server attempt)
  | attempt, retriesLeft + 1 =>
    let resp := server attempt
    if resp.status ∈ retryStatuses then
      let next := retrySend server (attempt + 1) retriesLeft
      (next.1, backoffFactor * 2 ^ attempt :: next.2.1, next.2.2)
    else (attempt + 1, [], resp)

/-- The observable outcome of one `HTTPClient.post` call. -/
structure PostOutcome where
  attempts : Nat
  sleeps : List Nat
  result : Except Err Bytes

/-- Modelled from the spec: `HTTPClient.post` of
`nutrient_dws/http_client.py` (not in the tree; §4.2 and the unit tests).
A missing credential is rejected locally — zero attempts — with
`AuthenticationError`; otherwise the request is sent with the session's
retry policy and the final response is classified. -/
def HTTPClient.post (api_key : Option String) (server : Nat → HttpResponse) : PostOutcome :=
  match api_key with
  | none =>
    { attempts := 0, sleeps := [], result := .error (.authenticationError "API key is required") }
  | some _ =>
    let r := retrySend server 0 totalRetries
    { attempts := r.1, sleeps := r.2.1, result := classifyResponse r.2.2 }

/-- The integers `a, a+1, ..., b-1` (empty when `b ≤ a`). -/
def intRange (a b : Int) : List Int :=
  (List.range (b - a).toNat).map (fun k : Nat => a + (k : Int))

/-- Helper of `groupRuns`: the current maximal run is `[a, b]`; absorb
subsequent consecutive values, closing the run as the half-open pair
`(a, b+1)` at each gap. -/
def extendRun (a b : Int) : List Int → List (Int × Int)
  | [] => [(a, b + 1)]
  | q :: qs => if q = b + 1 then extendRun a q qs else (a, b + 1) :: extendRun q q qs

/-- Decompose a strictly increasing list of integers into its maximal
consecutive runs, each as a half-open pair `(start, end)`. -/
def groupRuns : List Int → List (Int × Int)
  | [] => []
  | p :: ps => extendRun p p ps

/-- The maximum of a list of integers (0 for the empty list). -/
def maxOf : List Int → Int
  | [] => 0
  | [x] => x
  | x :: y :: xs => max x (maxOf (y :: xs))

/-- The parts the claim describes for a deletion list `L`: one closed range
per maximal run of kept pages below `max L`, followed by the open-ended
part starting at `max L + 1`. -/
def specDeleteParts (L : List Int) : List Part :=
  (groupRuns ((intRange 0 (maxOf L)).filter (fun p => decide (p ∉ L)))).map
    (fun r => closedPart r.1 r.2) ++ [openPart (maxOf L + 1)]

/-- Is the normalized upload content an open file handle (stream)? -/
def isStreamResult (r : Except Err (String × UploadTuple)) : Bool :=
  match r with
  | .ok (_, _, .fileHandle _, _) => true
  | _ => false

/-- Does the event record an output materialization (directory creation or
file write)? -/
def isOutputEvent (e : Event) : Bool :=
  match e with
  | .mkdirParents _ => true
  | .wrote _ _ => true
  | _ => false

/-- The multipart file dictionary `merge_pdfs` builds for byte inputs. -/
def mergeExpectedFiles (bs : List Bytes) : List (String × UploadTuple) :=
  List.zipWith (fun j b => (mergeFieldName j, ("document", UploadContent.buffer b,
    "application/octet-stream"))) (List.range bs.length) bs

theorem mem_intRange {a b p : Int} : p ∈ intRange a b ↔ a ≤ p ∧ p < b := by
  simp only [intRange, List.mem_map, List.mem_range]
  constructor
  · rintro ⟨k, hk, rfl⟩
    omega
  · rintro ⟨h1, h2⟩
    exact ⟨(p - a).toNat, by omega, by omega⟩

theorem intRange_append {a b c : Int} (h1 : a ≤ b) (h2 : b ≤ c) :
    intRange a c = intRange a b ++ intRange b c := by
  simp only [intRange]
  have h3 : (c - a).toNat = (b - a).toNat + (c - b).toNat := by omega
  rw [h3, List.range_add, List.map_append, List.map_map]
  refine congrArg _ ?_
  refine List.map_congr_left fun k _ => ?_
  simp only [Function.comp_apply]
  omega

theorem intRange_cons {a b : Int} (h : a < b) : intRange a b = a :: intRange (a + 1) b := by
  simp only [intRange]
  have h1 : (b - a).toNat = (b - (a + 1)).toNat + 1 := by omega
  rw [h1, List.range_succ_eq_map, List.map_cons, List.map_map]
  refine congrArg₂ _ (by simp) ?_
  refine List.map_congr_left fun k _ => ?_
  simp only [Function.comp_apply, Nat.succ_eq_add_one]
  push_cast
  ring

theorem extendRun_contig (k : Nat) (a b : Int) (B : List Int) :
    extendRun a b (((List.range k).map (fun j : Nat => b + 1 + (j : Int))) ++ B) =
      extendRun a (b + k) B := by
  induction k generalizing b with
  | zero => simp
  | succ n ih =>
    have e1 : ((List.range (n + 1)).map (fun j : Nat => b + 1 + (j : Int))) ++ B =
        (b + 1) :: (((List.range n).map (fun j : Nat => (b + 1) + 1 + (j : Int))) ++ B) := by
      rw [List.range_succ_eq_map, List.map_cons, List.map_map]
      simp only [List.cons_append]
      refine congrArg₂ _ (by simp) (congrArg₂ _ ?_ rfl)
      refine List.map_congr_left fun j _ => ?_
      simp only [Function.comp_apply, Nat.succ_eq_add_one]
      push_cast
      ring
    rw [e1, extendRun, if_pos rfl, ih]
    have e2 : (b + 1) + (n : Int) = b + ((n + 1 : Nat) : Int) := by push_cast; ring
    rw [e2]

theorem groupRuns_contig (a d : Int) (B : List Int) (had : a ≤ d)
    (hB : ∀ x ∈ B, d + 1 ≤ x) :
    groupRuns (intRange a d ++ B) = (if a < d then [(a, d)] else []) ++ groupRuns B := by
  rcases eq_or_lt_of_le had with rfl | hlt
  · have : intRange a a = [] := by
      simp [intRange]
    simp [this]
  · rw [if_pos hlt, intRange_cons hlt]
    simp only [List.cons_append, groupRuns]
    have e2 : intRange (a + 1) d =
        (List.range (d - (a + 1)).toNat).map (fun j : Nat => a + 1 + (j : Int)) := rfl
    rw [e2, extendRun_contig]
    have e3 : a + ((d - (a + 1)).toNat : Int) = d - 1 := by omega
    rw [e3]
    cases B with
    | nil =>
      have e4 : d - 1 + 1 = d := by ring
      simp [extendRun, e4]
    | cons q qs =>
      have hq : ¬ q = (d - 1) + 1 := by
        have := hB q (by simp)
        omega
      rw [extendRun, if_neg hq]
      have e5 : d - 1 + 1 = d := by ring
      rw [e5]
      rfl

theorem mem_sortedDedup {x : Int} {l : List Int} : x ∈ sortedDedup l ↔ x ∈ l := by
  unfold sortedDedup
  rw [List.mem_dedup]
  exact (List.perm_insertionSort (· ≤ ·) l).mem_iff

theorem sortedDedup_pairwise (l : List Int) : List.Pairwise (· < ·) (sortedDedup l) := by
  have hs : List.Pairwise (· ≤ ·) (sortedDedup l) :=
    (List.sorted_insertionSort (· ≤ ·) l).sublist (List.dedup_sublist _)
  have hn : List.Pairwise (· ≠ ·) (sortedDedup l) := List.nodup_dedup _
  exact (hs.and hn).imp fun h => lt_of_le_of_ne h.1 h.2

theorem getLastD_mem : ∀ (rest : List Int) (d : Int), rest.getLastD d ∈ d :: rest := by
  intro rest
  induction rest with
  | nil => intro d; simp
  | cons d' rest' ih =>
    intro d
    rw [List.getLastD_cons d d' rest']
    exact List.mem_cons_of_mem d (ih d')

theorem le_getLastD : ∀ {rest : List Int} {d x : Int},
    List.Pairwise (· < ·) (d :: rest) → x ∈ d :: rest → x ≤ rest.getLastD d := by
  intro rest
  induction rest with
  | nil =>
    intro d x _ hx
    simp at hx
    simp [hx]
  | cons d' rest' ih =>
    intro d x hp hx
    rw [List.getLastD_cons d d' rest']
    have hp' : List.Pairwise (· < ·) (d' :: rest') := (List.pairwise_cons.mp hp).2
    rcases List.mem_cons.mp hx with rfl | hx'
    · have h1 : x < d' := (List.pairwise_cons.mp hp).1 d' (by simp)
      have h2 : d' ≤ rest'.getLastD d' := ih hp' (by simp)
      omega
    · exact ih hp' hx'

theorem maxOf_mem : ∀ (l : List Int), l ≠ [] → maxOf l ∈ l
  | [], h => absurd rfl h
  | [x], _ => by simp [maxOf]
  | x :: y :: xs, _ => by
    have ih := maxOf_mem (y :: xs) (by simp)
    simp only [maxOf]
    rcases le_total x (maxOf (y :: xs)) with h | h
    · rw [max_eq_right h]
      exact List.mem_cons_of_mem _ ih
    · rw [max_eq_left h]
      simp

theorem le_maxOf : ∀ (l : List Int) (x : Int), x ∈ l → x ≤ maxOf l
  | [], x, hx => absurd hx (List.not_mem_nil x)
  | [y], x, hx => by
    simp at hx
    simp [maxOf, hx]
  | a :: y :: xs, x, hx => by
    simp only [maxOf]
    rcases List.mem_cons.mp hx with rfl | hx'
    · exact le_max_left _ _
    · exact le_trans (le_maxOf (y :: xs) x hx') (le_max_right _ _)

theorem sortedDedup_last_eq_maxOf {L : List Int} {d : Int} {rest : List Int}
    (h : L ≠ []) (hds : sortedDedup L = d :: rest) :
    rest.getLastD d = maxOf L := by
  have h1 : rest.getLastD d ∈ L := by
    rw [← mem_sortedDedup (l := L), hds]
    exact getLastD_mem rest d
  have h2 : maxOf L ∈ d :: rest := by
    rw [← hds]
    exact mem_sortedDedup.mpr (maxOf_mem L h)
  have h3 := le_getLastD (hds ▸ sortedDedup_pairwise L) h2
  exact le_antisymm (le_maxOf L _ h1) h3

theorem keep_loop_eq : ∀ (rest : List Int) (d cur : Int), cur ≤ d →
    List.Pairwise (· < ·) (d :: rest) → (∀ x ∈ d :: rest, 0 ≤ x) →
    keep_loop cur (d :: rest) =
      ((groupRuns ((intRange cur (rest.getLastD d)).filter
          (fun p => decide (p ∉ d :: rest)))).map (fun r => closedPart r.1 r.2),
        rest.getLastD d + 1) := by
  intro rest
  induction rest with
  | nil =>
    intro d cur hcd _ hnn
    have hd0 : ¬ d < 0 := by
      have := hnn d (by simp)
      omega
    have hfil : (intRange cur d).filter (fun p => decide (p ∉ [d])) = intRange cur d := by
      rw [List.filter_eq_self]
      intro p hp
      have hb := mem_intRange.mp hp
      simp only [decide_eq_true_eq, List.mem_singleton]
      omega
    have hruns := groupRuns_contig cur d [] hcd (by intro x hx; simp at hx)
    rw [List.append_nil] at hruns
    simp only [keep_loop, if_neg hd0, List.getLastD_nil, hfil, hruns]
    by_cases h : cur < d <;> simp [h, groupRuns, closedPart]
  | cons d' rest' ih =>
    intro d cur hcd hsort hnn
    have hd0 : ¬ d < 0 := by
      have := hnn d (by simp)
      omega
    have hlt : ∀ x ∈ d' :: rest', d < x := (List.pairwise_cons.mp hsort).1
    have hsort' : List.Pairwise (· < ·) (d' :: rest') := (List.pairwise_cons.mp hsort).2
    have hnn' : ∀ x ∈ d' :: rest', 0 ≤ x := fun x hx => hnn x (List.mem_cons_of_mem _ hx)
    have hdd' : d < d' := hlt d' (by simp)
    have hih := ih d' (d + 1) (by omega) hsort' hnn'
    have hd'last : d' ≤ rest'.getLastD d' := le_getLastD hsort' (by simp)
    set last := rest'.getLastD d' with hlastdef
    have hglast : (d' :: rest').getLastD d = last := List.getLastD_cons d d' rest'
    have hdl : d ≤ last := by omega
    have hsplit : intRange cur last = intRange cur d ++ (d :: intRange (d + 1) last) := by
      rw [intRange_append hcd hdl, @intRange_cons d last (by omega)]
    have hmemiff : ∀ p : Int, p ∈ intRange (d + 1) last →
        ((p ∉ d :: d' :: rest') ↔ (p ∉ d' :: rest')) := by
      intro p hp
      have hb := mem_intRange.mp hp
      constructor
      · intro hq hq'
        exact hq (List.mem_cons_of_mem _ hq')
      · intro hq hq'
        rcases List.mem_cons.mp hq' with rfl | hq''
        · omega
        · exact hq hq''
    have hfil : (intRange cur last).filter (fun p => decide (p ∉ d :: d' :: rest')) =
        intRange cur d ++ (intRange (d + 1) last).filter (fun p => decide (p ∉ d' :: rest')) := by
      rw [hsplit, List.filter_append, List.filter_cons]
      have h1 : (intRange cur d).filter (fun p => decide (p ∉ d :: d' :: rest')) =
          intRange cur d := by
        rw [List.filter_eq_self]
        intro p hp
        have hb := mem_intRange.mp hp
        rw [decide_eq_true_eq]
        intro hmem
        rcases List.mem_cons.mp hmem with rfl | hmem'
        · omega
        · exact absurd (hlt p hmem') (by omega)
      have h2 : (decide (d ∉ d :: d' :: rest')) = false := by simp
      have h3 : (intRange (d + 1) last).filter (fun p => decide (p ∉ d :: d' :: rest')) =
          (intRange (d + 1) last).filter (fun p => decide (p ∉ d' :: rest')) := by
        refine List.filter_congr fun p hp => ?_
        exact decide_eq_decide.mpr (hmemiff p hp)
      rw [h1, h2, h3]
      simp
    have hB : ∀ x ∈ (intRange (d + 1) last).filter (fun p => decide (p ∉ d' :: rest')),
        d + 1 ≤ x := by
      intro x hx
      have := mem_intRange.mp (List.mem_of_mem_filter hx)
      omega
    have hruns := groupRuns_contig cur d _ hcd hB
    have hstep : keep_loop cur (d :: d' :: rest') =
        ((if cur < d then [closedPart cur d] else []) ++ (keep_loop (d + 1) (d' :: rest')).1,
          (keep_loop (d + 1) (d' :: rest')).2) := by
      simp [keep_loop, if_neg hd0]
    rw [hstep, hih, hglast, hfil, hruns]
    by_cases h : cur < d <;> simp [h]

theorem sortedDedup_ne_nil {L : List Int} (h : L ≠ []) :
    ∃ d rest, sortedDedup L = d :: rest := by
  cases hsd : sortedDedup L with
  | nil =>
    obtain ⟨x, hx⟩ := List.exists_mem_of_ne_nil L h
    have hmem := mem_sortedDedup.mpr hx
    rw [hsd] at hmem
    exact absurd hmem (List.not_mem_nil x)
  | cons d rest => exact ⟨d, rest, rfl⟩

theorem delete_parts_eq_spec (L : List Int) (h1 : L ≠ []) (h2 : ∀ x ∈ L, 0 ≤ x) :
    delete_parts L = .ok (specDeleteParts L) := by
  obtain ⟨d, rest, hds⟩ := sortedDedup_ne_nil h1
  have hpw : List.Pairwise (· < ·) (d :: rest) := hds ▸ sortedDedup_pairwise L
  have hnnds : ∀ x ∈ d :: rest, 0 ≤ x := by
    intro x hx
    exact h2 x (mem_sortedDedup.mp (hds ▸ hx))
  have hd0 : (0 : Int) ≤ d := hnnds d (by simp)
  have hkl := keep_loop_eq rest d 0 hd0 hpw hnnds
  have hany : L.any (fun idx => idx < 0) = false := by
    simp only [List.any_eq_false, decide_eq_true_eq]
    intro x hx
    have := h2 x hx
    omega
  have hlastmax := sortedDedup_last_eq_maxOf h1 hds
  have hfc : (intRange 0 (rest.getLastD d)).filter (fun p => decide (p ∉ d :: rest)) =
      (intRange 0 (maxOf L)).filter (fun p => decide (p ∉ L)) := by
    rw [hlastmax]
    refine List.filter_congr fun p _ => ?_
    refine decide_eq_decide.mpr (not_congr ?_)
    rw [← hds]
    exact mem_sortedDedup
  have hlast0 : (0 : Int) ≤ rest.getLastD d + 1 := by
    have := le_getLastD hpw (show d ∈ d :: rest by simp)
    omega
  simp only [delete_parts, hds, hkl, hany, Bool.false_eq_true, if_false]
  rw [if_pos hlast0]
  have hne : (List.map (fun r => closedPart r.1 r.2)
      (groupRuns ((intRange 0 (rest.getLastD d)).filter (fun p => decide (p ∉ d :: rest)))) ++
      [openPart (rest.getLastD d + 1)]).isEmpty = false := by
    simp
  rw [hne]
  simp only [Bool.false_eq_true, if_false, hlastmax, specDeleteParts]
  have hfc2 : List.filter (fun p => decide (p ∉ d :: rest)) (intRange 0 (maxOf L)) =
      List.filter (fun p => decide (p ∉ L)) (intRange 0 (maxOf L)) :=
    List.filter_congr fun p _ =>
      decide_eq_decide.mpr (not_congr (by rw [← hds]; exact mem_sortedDedup))
  rw [hfc2]

/-- C2: for every non-empty list of non-negative page indexes,
`delete_pdf_pages` sorts and de-duplicates the list and sends an
instruction document whose parts are exactly the complement ranges: one
closed `{start, end}` per maximal kept run below the maximum deleted index,
followed by the open part `{start: max+1}`; deleting `[0, 2]` produces
`[{start: 1, end: 2}, {start: 3}]`. -/
theorem delete_pdf_pages_complement_ranges (L : List Int) (h1 : L ≠ [])
    (h2 : ∀ x ∈ L, 0 ≤ x) :
    delete_parts L = .ok (specDeleteParts L) ∧
    ∀ (fs : FS) (post : Post) (b : Bytes) (out : Option String),
      (delete_pdf_pages fs post (.bytes b) L out).1.take 2 =
        [.prepared "file" "document",
         .posted "/build" [("file", ("document", .buffer b, "application/octet-stream"))]
           ⟨specDeleteParts L, []⟩] := by
  have hmain := delete_parts_eq_spec L h1 h2
  refine ⟨hmain, ?_⟩
  intro fs post b out
  have hne : L.isEmpty = false := by
    cases L with
    | nil => exact absurd rfl h1
    | cons a as => rfl
  simp only [delete_pdf_pages, hne, Bool.false_eq_true, if_false,
    prepare_file_for_upload, hmain]
  cases hpost : post [("file", ("document", .buffer b, "application/octet-stream"))]
      ⟨specDeleteParts L, []⟩ with
  | error e => simp [hpost]
  | ok r =>
    cases out with
    | none => simp [hpost]
    | some p => simp [hpost]

/-- Witness for C2 at the claim's concrete input `[0, 2]`. -/
theorem delete_pdf_pages_complement_ranges_witness :
    ([0, 2] : List Int) ≠ [] ∧ (∀ x ∈ ([0, 2] : List Int), (0 : Int) ≤ x) ∧
    delete_parts [0, 2] = .ok [closedPart 1 2, openPart 3] ∧
    specDeleteParts [0, 2] = [closedPart 1 2, openPart 3] := by
  have h1 : ([0, 2] : List Int) ≠ [] := by decide
  have h2 : ∀ x ∈ ([0, 2] : List Int), (0 : Int) ≤ x := by decide
  have hthm := delete_pdf_pages_complement_ranges [0, 2] h1 h2
  have hspec : specDeleteParts [0, 2] = [closedPart 1 2, openPart 3] := by decide
  exact ⟨h1, h2, by rw [hthm.1, hspec], hspec⟩

theorem delete_parts_negative (L : List Int) (hneg : ∃ i ∈ L, i < 0) :
    delete_parts L = .error (.valueError
      ("Negative page indexes not yet supported for deletion: " ++
        toString (L.filter (fun idx => idx < 0)))) := by
  obtain ⟨i, hi, hilt⟩ := hneg
  have hany : L.any (fun idx => idx < 0) = true := by
    rw [List.any_eq_true]
    exact ⟨i, hi, by simpa using hilt⟩
  simp only [delete_parts, hany, if_true]

/-- C7: a deletion list containing a negative index is rejected with a
`ValueError` naming the negative indexes, while `duplicate_pdf_pages`
forwards every index — negative or not — unchanged as the single-page part
`{"file": "file", "pages": {"start": i, "end": i}}`, one part per index in
caller order. -/
theorem negative_indexes_delete_rejects_duplicate_forwards :
    (∀ (L : List Int) (fs : FS) (post : Post) (b : Bytes) (out : Option String),
      (∃ i ∈ L, i < 0) →
      (delete_pdf_pages fs post (.bytes b) L out).2 =
        .error (.valueError ("Negative page indexes not yet supported for deletion: " ++
          toString (L.filter (fun idx => idx < 0))))) ∧
    (∀ (L : List Int) (fs : FS) (post : Post) (b : Bytes), L ≠ [] →
      duplicate_pdf_pages fs post (.bytes b) L none =
        ([.prepared "file" "document",
          .posted "/build" [("file", ("document", .buffer b, "application/octet-stream"))]
            ⟨L.map (fun i => closedPart i i), []⟩],
         (post [("file", ("document", .buffer b, "application/octet-stream"))]
            ⟨L.map (fun i => closedPart i i), []⟩).map some)) := by
  constructor
  · intro L fs post b out hneg
    obtain ⟨i, hi, _⟩ := hneg
    have hne : L.isEmpty = false := by
      cases L with
      | nil => exact absurd hi (List.not_mem_nil i)
      | cons a as => rfl
    have hdp := delete_parts_negative L ⟨i, hi, by assumption⟩
    simp only [delete_pdf_pages, hne, Bool.false_eq_true, if_false,
      prepare_file_for_upload, hdp]
  · intro L fs post b hL
    have hne : L.isEmpty = false := by
      cases L with
      | nil => exact absurd rfl hL
      | cons a as => rfl
    have hdp : duplicate_parts L = L.map (fun i => closedPart i i) := by
      simp [duplicate_parts]
    simp only [duplicate_pdf_pages, hne, Bool.false_eq_true, if_false,
      prepare_file_for_upload, hdp]
    cases hpost : post [("file", ("document", .buffer b, "application/octet-stream"))]
        ⟨L.map (fun i => closedPart i i), []⟩ with
    | error e => simp [hpost, Except.map]
    | ok r => simp [hpost, Except.map]

/-- Witness for C7 at `[-1, 0, 2]` (delete) and `[-1, 0, 2]` (duplicate). -/
theorem negative_indexes_witness :
    (∃ i ∈ ([-1, 0, 2] : List Int), i < 0) ∧ ([-1, 0, 2] : List Int) ≠ [] ∧
    (delete_pdf_pages (fun _ => none) (fun _ _ => .ok [1]) (.bytes [9]) [-1, 0, 2] none).2 =
      .error (.valueError
        "Negative page indexes not yet supported for deletion: [-1]") ∧
    (duplicate_pdf_pages (fun _ => none) (fun _ _ => .ok [1]) (.bytes [9]) [-1, 0, 2] none).2 =
      .ok (some [1]) := by
  have hneg : ∃ i ∈ ([-1, 0, 2] : List Int), i < 0 := ⟨-1, by decide, by decide⟩
  have hL : ([-1, 0, 2] : List Int) ≠ [] := by decide
  refine ⟨hneg, hL, ?_, ?_⟩
  · have h := (negative_indexes_delete_rejects_duplicate_forwards).1 [-1, 0, 2]
      (fun _ => none) (fun _ _ => .ok [1]) [9] none hneg
    rw [h]
    rfl
  · have h := (negative_indexes_delete_rejects_duplicate_forwards).2 [-1, 0, 2]
      (fun _ => none) (fun _ _ => .ok [1]) [9] hL
    rw [h]
    rfl

/-- C8: when `delete_pdf_pages` is invoked with an `output_path`, a failed
run (local validation or transport error) performs no directory creation
and no file write, while a successful run returns `None` and produces
exactly the parent-directory creation followed by the write of the
response bytes. -/
theorem output_path_written_only_on_success :
    ∀ (fs : FS) (post : Post) (input : FileInput) (L : List Int) (p : String),
      (∀ er, (delete_pdf_pages fs post input L (some p)).2 = .error er →
        ((delete_pdf_pages fs post input L (some p)).1.filter isOutputEvent) = []) ∧
      (∀ v, (delete_pdf_pages fs post input L (some p)).2 = .ok v →
        v = none ∧ ∃ rb, (delete_pdf_pages fs post input L (some p)).1.filter isOutputEvent =
          [.mkdirParents (parentDir p), .wrote p rb]) := by
  intro fs post input L p
  by_cases hemp : L.isEmpty = true
  · refine ⟨fun er _ => ?_, fun v hv => ?_⟩
    · simp [delete_pdf_pages, hemp]
    · simp [delete_pdf_pages, hemp] at hv
  · cases hprep : prepare_file_for_upload fs input "file" with
    | error e =>
      refine ⟨fun er _ => ?_, fun v hv => ?_⟩
      · simp [delete_pdf_pages, hemp, hprep]
      · simp [delete_pdf_pages, hemp, hprep] at hv
    | ok fd =>
      obtain ⟨ff, fdata⟩ := fd
      cases hdp : delete_parts L with
      | error e =>
        refine ⟨fun er _ => ?_, fun v hv => ?_⟩
        · simp [delete_pdf_pages, hemp, hprep, hdp, isOutputEvent]
        · simp [delete_pdf_pages, hemp, hprep, hdp] at hv
      | ok parts =>
        cases hpost : post [(ff, fdata)] ⟨parts, []⟩ with
        | error e =>
          refine ⟨fun er _ => ?_, fun v hv => ?_⟩
          · simp [delete_pdf_pages, hemp, hprep, hdp, hpost, isOutputEvent]
          · simp [delete_pdf_pages, hemp, hprep, hdp, hpost] at hv
        | ok result =>
          refine ⟨fun er her => ?_, fun v hv => ?_⟩
          · simp [delete_pdf_pages, hemp, hprep, hdp, hpost] at her
          · have hv' : v = none := by
              simp [delete_pdf_pages, hemp, hprep, hdp, hpost] at hv
              exact hv.symm
            refine ⟨hv', result, ?_⟩
            simp [delete_pdf_pages, hemp, hprep, hdp, hpost, save_file_output, isOutputEvent]

/-- Witness for C8: a failing run writes nothing; a successful run writes
exactly the parent mkdir and the result bytes. -/
theorem output_path_written_only_on_success_witness :
    ((delete_pdf_pages (fun _ => none) (fun _ _ => .error (.timeoutError "t"))
        (.bytes [1]) [] (some "out/f.pdf")).1.filter isOutputEvent = []) ∧
    ((none : Option Bytes) = none ∧
      ∃ rb, (delete_pdf_pages (fun _ => none) (fun _ _ => .ok [7])
        (.bytes [1]) [0] (some "out/f.pdf")).1.filter isOutputEvent =
          [.mkdirParents (parentDir "out/f.pdf"), .wrote "out/f.pdf" rb]) := by
  constructor
  · exact (output_path_written_only_on_success (fun _ => none)
      (fun _ _ => .error (.timeoutError "t")) (.bytes [1]) [] "out/f.pdf").1
      (.valueError "page_indexes cannot be empty") rfl
  · exact (output_path_written_only_on_success (fun _ => none)
      (fun _ _ => .ok [7]) (.bytes [1]) [0] "out/f.pdf").2 none rfl

theorem decimalDigitsFuel_eq_digits : ∀ (fuel n : Nat), n ≤ fuel →
    decimalDigitsFuel fuel n = Nat.digits 10 n := by
  intro fuel
  induction fuel with
  | zero =>
    intro n hn
    have h0 : n = 0 := by omega
    subst h0
    simp [decimalDigitsFuel]
  | succ f ih =>
    intro n hn
    by_cases h0 : n = 0
    · subst h0
      simp [decimalDigitsFuel]
    · have hdiv : n / 10 ≤ f := by
        have := Nat.div_lt_self (Nat.pos_of_ne_zero h0) (by norm_num : 1 < 10)
        omega
      rw [decimalDigitsFuel, if_neg h0, ih _ hdiv,
        Nat.digits_def' (by norm_num : (1 : Nat) < 10) (Nat.pos_of_ne_zero h0)]

theorem decimalDigits_eq_digits (n : Nat) : decimalDigits n = Nat.digits 10 n :=
  decimalDigitsFuel_eq_digits n n le_rfl

theorem digitChar_injOn (d e : Nat) (hd : d < 10) (he : e < 10)
    (heq : Nat.digitChar d = Nat.digitChar e) : d = e := by
  have h : ∀ (x y : Fin 10), Nat.digitChar x.val = Nat.digitChar y.val → x = y := by decide
  have := h ⟨d, hd⟩ ⟨e, he⟩ heq
  exact congrArg Fin.val this

theorem map_digitChar_inj : ∀ (l1 l2 : List Nat), (∀ x ∈ l1, x < 10) → (∀ x ∈ l2, x < 10) →
    l1.map Nat.digitChar = l2.map Nat.digitChar → l1 = l2 := by
  intro l1
  induction l1 with
  | nil =>
    intro l2 _ _ h
    cases l2 with
    | nil => rfl
    | cons b bs => simp at h
  | cons a as ih =>
    intro l2 h1 h2 h
    cases l2 with
    | nil => simp at h
    | cons b bs =>
      simp only [List.map_cons, List.cons.injEq] at h
      have ha := digitChar_injOn a b (h1 a (by simp)) (h2 b (by simp)) h.1
      have hrest := ih bs (fun x hx => h1 x (List.mem_cons_of_mem _ hx))
        (fun x hx => h2 x (List.mem_cons_of_mem _ hx)) h.2
      rw [ha, hrest]

theorem digits_all_lt_10 (n : Nat) : ∀ x ∈ Nat.digits 10 n, x < 10 := by
  intro x hx
  exact Nat.digits_lt_base (by norm_num) hx

theorem decimalStr_pos_ne_zero_str (k : Nat) : decimalStr (k + 1) ≠ "0" := by
  intro h
  have hdata : ((decimalDigits (k + 1)).reverse.map Nat.digitChar) = ['0'] :=
    congrArg String.data h
  rw [decimalDigits_eq_digits] at hdata
  cases hrev : (Nat.digits 10 (k + 1)).reverse with
  | nil => rw [hrev] at hdata; simp at hdata
  | cons x xs =>
    rw [hrev] at hdata
    cases xs with
    | cons y ys => simp at hdata
    | nil =>
      simp only [List.map_cons, List.map_nil, List.cons.injEq] at hdata
      have hx10 : x < 10 := by
        refine digits_all_lt_10 (k + 1) x ?_
        rw [← List.mem_reverse, hrev]
        simp
      have hx0 : x = 0 := digitChar_injOn x 0 hx10 (by norm_num) (by simpa using hdata.1)
      have hdig : Nat.digits 10 (k + 1) = [0] := by
        have := congrArg List.reverse hrev
        simpa [hx0] using this
      have hof := Nat.ofDigits_digits 10 (k + 1)
      rw [hdig] at hof
      simp [Nat.ofDigits] at hof

theorem decimalStr_inj : Function.Injective decimalStr := by
  intro m n h
  match m, n with
  | 0, 0 => rfl
  | 0, k + 1 => exact absurd h.symm (decimalStr_pos_ne_zero_str k)
  | j + 1, 0 => exact absurd h (decimalStr_pos_ne_zero_str j)
  | j + 1, k + 1 =>
    have hdata : ((decimalDigits (j + 1)).reverse.map Nat.digitChar) =
        ((decimalDigits (k + 1)).reverse.map Nat.digitChar) := congrArg String.data h
    rw [decimalDigits_eq_digits, decimalDigits_eq_digits] at hdata
    have hb1 : ∀ x ∈ (Nat.digits 10 (j + 1)).reverse, x < 10 := by
      intro x hx
      exact digits_all_lt_10 _ x (List.mem_reverse.mp hx)
    have hb2 : ∀ x ∈ (Nat.digits 10 (k + 1)).reverse, x < 10 := by
      intro x hx
      exact digits_all_lt_10 _ x (List.mem_reverse.mp hx)
    have hrev := map_digitChar_inj _ _ hb1 hb2 hdata
    have hdig : Nat.digits 10 (j + 1) = Nat.digits 10 (k + 1) :=
      List.reverse_injective hrev
    exact Nat.digits_inj_iff.mp hdig

theorem mergeFieldName_inj : Function.Injective mergeFieldName := by
  intro i j h
  have hdata : ("file" ++ decimalStr i).data = ("file" ++ decimalStr j).data :=
    congrArg String.data h
  rw [String.data_append, String.data_append] at hdata
  have hsuffix := List.append_cancel_left hdata
  exact decimalStr_inj (String.ext hsuffix)

theorem zipWith_left_const {α β γ : Type} : ∀ (l1 : List α) (l2 : List β) (f : α → γ),
    l1.length = l2.length → List.zipWith (fun a _ => f a) l1 l2 = l1.map f := by
  intro l1
  induction l1 with
  | nil => intro l2 f _; simp
  | cons a as ih =>
    intro l2 f hlen
    cases l2 with
    | nil => simp at hlen
    | cons b bs =>
      simp only [List.zipWith_cons_cons, List.map_cons]
      rw [ih bs f (by simpa using hlen)]

theorem merge_loop_bytes : ∀ (bs : List Bytes) (i : Nat) (fs : FS),
    merge_loop fs (bs.map FileInput.bytes) i =
      .ok ((List.range' i bs.length).map (fun j => Event.prepared (mergeFieldName j) "document"),
        List.zipWith (fun j b => (mergeFieldName j, ("document", UploadContent.buffer b,
          "application/octet-stream"))) (List.range' i bs.length) bs,
        (List.range' i bs.length).map (fun j => { file := mergeFieldName j, pages := none })) := by
  intro bs
  induction bs with
  | nil =>
    intro i fs
    simp [merge_loop]
  | cons b rest ih =>
    intro i fs
    simp only [List.map_cons, merge_loop, prepare_file_for_upload]
    rw [ih (i + 1) fs]
    simp [List.range'_succ]

/-- C9: `merge_pdfs` with at least two inputs uploads one distinct file
field per input (`file0 … file(n-1)`, all distinct) and posts an
instruction document whose parts are exactly `[{"file": "file0"}, …]` in
caller order; fewer than two files raises `ValueError` before any file is
prepared or request sent (empty event trace). -/
theorem merge_pdfs_fields_and_parts :
    (∀ (fs : FS) (post : Post) (files : List FileInput) (out : Option String),
      files.length < 2 →
      merge_pdfs fs post files out =
        ([], .error (.valueError "At least 2 files required for merge"))) ∧
    (∀ (fs : FS) (post : Post) (bs : List Bytes) (out : Option String), 2 ≤ bs.length →
      (mergeExpectedFiles bs).map Prod.fst = (List.range bs.length).map mergeFieldName ∧
      ((List.range bs.length).map mergeFieldName).Nodup ∧
      (merge_pdfs fs post (bs.map FileInput.bytes) out).1.take (bs.length + 1) =
        (List.range bs.length).map (fun j => Event.prepared (mergeFieldName j) "document") ++
          [.posted "/build" (mergeExpectedFiles bs)
            ⟨(List.range bs.length).map (fun j => { file := mergeFieldName j, pages := none }),
              []⟩]) := by
  constructor
  · intro fs post files out hlen
    simp [merge_pdfs, hlen]
  · intro fs post bs out hlen
    have hfst : (mergeExpectedFiles bs).map Prod.fst =
        (List.range bs.length).map mergeFieldName := by
      unfold mergeExpectedFiles
      rw [List.map_zipWith]
      exact zipWith_left_const _ _ _ (by simp)
    have hnodup : ((List.range bs.length).map mergeFieldName).Nodup :=
      (List.nodup_range _).map mergeFieldName_inj
    refine ⟨hfst, hnodup, ?_⟩
    have hnotlt : ¬ (bs.map FileInput.bytes).length < 2 := by
      simp only [List.length_map]
      omega
    have hml := merge_loop_bytes bs 0 fs
    rw [List.range_eq_range'] at *
    have hexp : mergeExpectedFiles bs =
        List.zipWith (fun j b => (mergeFieldName j, ("document", UploadContent.buffer b,
          "application/octet-stream"))) (List.range' 0 bs.length) bs := by
      unfold mergeExpectedFiles
      rw [List.range_eq_range']
    simp only [merge_pdfs, hnotlt, if_false, hml, hexp]
    set evs := (List.range' 0 bs.length).map
      (fun j => Event.prepared (mergeFieldName j) "document") with hevs
    set fls := List.zipWith (fun j b => (mergeFieldName j, ("document", UploadContent.buffer b,
      "application/octet-stream"))) (List.range' 0 bs.length) bs with hfls
    set prts := (List.range' 0 bs.length).map
      (fun j => ({ file := mergeFieldName j, pages := none } : Part)) with hprts
    have hlen1 : (evs ++ [Event.posted "/build" fls ⟨prts, []⟩]).length = bs.length + 1 := by
      simp [hevs]
    cases hpost : post fls ⟨prts, []⟩ with
    | error e =>
      simp only [hpost]
      rw [List.take_of_length_le (by simp [hevs])]
    | ok result =>
      cases out with
      | none =>
        simp only [hpost]
        rw [List.take_of_length_le (by simp [hevs])]
      | some p =>
        simp only [hpost]
        rw [List.take_left' hlen1]

/-- Witness for C9: the two-file byte input `[[1], [2]]` and the
undersized input `[]`. -/
theorem merge_pdfs_fields_and_parts_witness :
    (([] : List FileInput).length < 2 ∧
      merge_pdfs (fun _ => none) (fun _ _ => .ok [5]) [] none =
        ([], .error (.valueError "At least 2 files required for merge"))) ∧
    (2 ≤ ([[1], [2]] : List Bytes).length ∧
      (mergeExpectedFiles [[1], [2]]).map Prod.fst =
        (List.range ([[1], [2]] : List Bytes).length).map mergeFieldName ∧
      ((List.range ([[1], [2]] : List Bytes).length).map mergeFieldName).Nodup) := by
  have h1 : ([] : List FileInput).length < 2 := by decide
  have h2 : 2 ≤ ([[1], [2]] : List Bytes).length := by decide
  have ha := merge_pdfs_fields_and_parts.1 (fun _ => none) (fun _ _ => .ok [5]) [] none h1
  have hb := merge_pdfs_fields_and_parts.2 (fun _ => none) (fun _ _ => .ok [5])
    [[1], [2]] none h2
  exact ⟨⟨h1, ha⟩, ⟨h2, hb.1, hb.2.1⟩⟩

/-- C10: `split_pdf` with `page_ranges` omitted (`None`) or empty performs
exactly one request whose instruction parts are
`[{"file": "file", "pages": {"start": 0, "end": 1}}]` — extracting only
the first page and yielding a one-element result list — rather than
splitting into one output per page. -/
theorem split_pdf_default_extracts_first_page :
    ∀ (fs : FS) (post : Post) (b : Bytes) (pr : Option (List PagesDict)),
      (pr = none ∨ pr = some []) →
      split_pdf fs post (.bytes b) pr none =
        ([.prepared "file" "document",
          .posted "/build" [("file", ("document", .buffer b, "application/octet-stream"))]
            ⟨[{ file := "file", pages := some [("start", 0), ("end", 1)] }], []⟩],
         (post [("file", ("document", .buffer b, "application/octet-stream"))]
            ⟨[{ file := "file", pages := some [("start", 0), ("end", 1)] }], []⟩).map
           (fun r => [r])) := by
  intro fs post b pr hpr
  have htr : truthyList pr = false := by
    rcases hpr with rfl | rfl <;> rfl
  have htro : truthyList (none : Option (List String)) = false := rfl
  cases hpost : post [("file", ("document", .buffer b, "application/octet-stream"))]
      ⟨[{ file := "file", pages := some [("start", 0), ("end", 1)] }], []⟩ with
  | error e =>
    simp [split_pdf, split_loop, prepare_file_for_upload, htr, htro, hpost, Except.map]
  | ok r =>
    simp [split_pdf, split_loop, prepare_file_for_upload, htr, htro, hpost, Except.map]

/-- Witness for C10 with `page_ranges = None`, a one-byte document and a
transport answering fixed bytes. -/
theorem split_pdf_default_extracts_first_page_witness :
    ((none : Option (List PagesDict)) = none ∨
      (none : Option (List PagesDict)) = some []) ∧
    split_pdf (fun _ => none) (fun _ _ => .ok [9]) (.bytes [1]) none none =
      ([.prepared "file" "document",
        .posted "/build" [("file", ("document", .buffer [1], "application/octet-stream"))]
          ⟨[{ file := "file", pages := some [("start", 0), ("end", 1)] }], []⟩],
       .ok [[9]]) := by
  refine ⟨Or.inl rfl, ?_⟩
  have h := split_pdf_default_extracts_first_page (fun _ => none) (fun _ _ => .ok [9])
    [1] none (Or.inl rfl)
  rw [h]
  rfl

/-- C6: normalizing an existing filesystem path streams (returns an open
handle) exactly when the `stat` size exceeds 10 MiB, returns the full
content as a buffer when the size is at most 10 MiB, decides between the
two using metadata only, and fails with a not-found error for a missing
path. -/
theorem prepare_path_streams_by_size :
    ∀ (fs : FS) (p : String) (m : FileMeta) (fn : String),
      (fs p = none → prepare_file_for_upload fs (.path p) fn =
        .error (.fileNotFound ("File not found: " ++ p))) ∧
      (fs p = some m → m.size > 10 * 1024 * 1024 →
        prepare_file_for_upload fs (.path p) fn =
          .ok (fn, (baseName p, .fileHandle p, "application/octet-stream"))) ∧
      (fs p = some m → m.size ≤ 10 * 1024 * 1024 →
        prepare_file_for_upload fs (.path p) fn =
          .ok (fn, (baseName p, .buffer m.content, "application/octet-stream"))) ∧
      (∀ (fs2 : FS) (m2 : FileMeta), fs p = some m → fs2 p = some m2 → m.size = m2.size →
        isStreamResult (prepare_file_for_upload fs (.path p) fn) =
          isStreamResult (prepare_file_for_upload fs2 (.path p) fn)) := by
  intro fs p m fn
  refine ⟨?_, ?_, ?_, ?_⟩
  · intro h
    simp [prepare_file_for_upload, h]
  · intro h hs
    simp [prepare_file_for_upload, h, hs]
  · intro h hs
    simp only [prepare_file_for_upload, h]
    rw [if_neg (by omega)]
  · intro fs2 m2 h h2 hsize
    simp only [prepare_file_for_upload, h, h2]
    by_cases hbig : m.size > 10 * 1024 * 1024
    · rw [if_pos hbig, if_pos (by omega)]
    · rw [if_neg hbig, if_neg (by omega)]
      simp [isStreamResult]

/-- Witness for C6: a missing path, an 10 MiB + 1 byte file (stream), a
3-byte file (buffer), and two filesystems agreeing on size only. -/
theorem prepare_path_streams_by_size_witness :
    prepare_file_for_upload
        (fun q => if q = "big.pdf" then some ⟨10485761, [1]⟩
          else if q = "small.pdf" then some ⟨3, [1, 2, 3]⟩ else none)
        (.path "no.pdf") "file" = .error (.fileNotFound "File not found: no.pdf") ∧
    prepare_file_for_upload
        (fun q => if q = "big.pdf" then some ⟨10485761, [1]⟩
          else if q = "small.pdf" then some ⟨3, [1, 2, 3]⟩ else none)
        (.path "big.pdf") "file" =
      .ok ("file", (baseName "big.pdf", .fileHandle "big.pdf", "application/octet-stream")) ∧
    prepare_file_for_upload
        (fun q => if q = "big.pdf" then some ⟨10485761, [1]⟩
          else if q = "small.pdf" then some ⟨3, [1, 2, 3]⟩ else none)
        (.path "small.pdf") "file" =
      .ok ("file", (baseName "small.pdf", .buffer [1, 2, 3], "application/octet-stream")) ∧
    isStreamResult (prepare_file_for_upload
        (fun q => if q = "big.pdf" then some ⟨10485761, [1]⟩
          else if q = "small.pdf" then some ⟨3, [1, 2, 3]⟩ else none)
        (.path "big.pdf") "file") =
      isStreamResult (prepare_file_for_upload (fun _ => some ⟨10485761, [9, 9]⟩)
        (.path "big.pdf") "file") := by
  refine ⟨?_, ?_, ?_, ?_⟩
  · exact (prepare_path_streams_by_size _ "no.pdf" ⟨0, []⟩ "file").1 (by decide)
  · exact (prepare_path_streams_by_size _ "big.pdf" ⟨10485761, [1]⟩ "file").2.1
      (by decide) (by decide)
  · exact (prepare_path_streams_by_size _ "small.pdf" ⟨3, [1, 2, 3]⟩ "file").2.2.1
      (by decide) (by decide)
  · exact (prepare_path_streams_by_size _ "big.pdf" ⟨10485761, [1]⟩ "file").2.2.2
      (fun _ => some ⟨10485761, [9, 9]⟩) ⟨10485761, [9, 9]⟩ (by decide) rfl rfl

/-- C1: `add_step("rotate-pages", {"degrees": d ("page_indexes": L)?})`
records exactly one Action `{"type": "rotate", "rotateBy": d}` with
`"pageIndexes"` present exactly when `page_indexes` was given, leaving
every other builder field unchanged (the mutated builder is returned for
chaining); in particular degrees 180 with pages `[0, 2, 4]` yields
`{"type": "rotate", "rotateBy": 180, "pageIndexes": [0, 2, 4]}`. -/
theorem add_step_rotate_records_action :
    (∀ (b : BuildAPIWrapper) (d : Int),
      add_step b "rotate-pages" (some [("degrees", .int d)]) =
        { b with actions := b.actions ++ [[("type", .str "rotate"), ("rotateBy", .int d)]] }) ∧
    (∀ (b : BuildAPIWrapper) (d : Int) (L : List Int),
      add_step b "rotate-pages" (some [("degrees", .int d), ("page_indexes", .intList L)]) =
        { b with actions := b.actions ++
          [[("type", .str "rotate"), ("rotateBy", .int d), ("pageIndexes", .intList L)]] }) ∧
    (add_step emptyBuilder "rotate-pages"
        (some [("degrees", .int 180), ("page_indexes", .intList [0, 2, 4])])).actions =
      [[("type", .str "rotate"), ("rotateBy", .int 180), ("pageIndexes", .intList [0, 2, 4])]] := by
  refine ⟨fun b d => ?_, fun b d L => ?_, ?_⟩ <;> rfl

/-- C3: a client built with neither an `api_key` argument nor the
environment variable resolves to no credential, and `post` then fails
locally with `AuthenticationError` after zero network attempts. -/
theorem post_without_credential_no_attempts :
    ∀ (server : Nat → HttpResponse),
      resolveApiKey none none = none ∧
      HTTPClient.post (resolveApiKey none none) server =
        { attempts := 0, sleeps := [],
          result := .error (.authenticationError "API key is required") } := by
  intro server
  exact ⟨rfl, rfl⟩

theorem retrySend_final (server : Nat → HttpResponse) :
    ∀ (r a : Nat), (retrySend server a r).2.2 = server ((retrySend server a r).1 - 1) := by
  intro r
  induction r with
  | zero =>
    intro a
    simp [retrySend]
  | succ n ih =>
    intro a
    by_cases h : (server a).status ∈ retryStatuses
    · simp only [retrySend, if_pos h]
      exact ih (a + 1)
    · simp [retrySend, if_neg h]

/-- C4: after the retry loop, the final response is classified: 401/403
raise `AuthenticationError`, 422 raises `ValidationError`, any other
status of at least 400 raises `APIError` carrying status and body, and a
2xx response returns the raw body bytes unmodified. -/
theorem post_classifies_final_response :
    ∀ (k : String) (server : Nat → HttpResponse),
      (HTTPClient.post (some k) server).result =
        classifyResponse (server ((HTTPClient.post (some k) server).attempts - 1)) ∧
      ∀ (r : HttpResponse),
        ((r.status = 401 ∨ r.status = 403) → classifyResponse r =
          .error (.authenticationError (r.message.getD "Authentication failed"))) ∧
        (r.status = 422 → classifyResponse r =
          .error (.validationError (r.message.getD "Validation failed") (r.errors.getD []))) ∧
        (400 ≤ r.status → r.status ≠ 401 → r.status ≠ 403 → r.status ≠ 422 →
          classifyResponse r =
            .error (.apiError (r.message.getD "API error") r.status r.body r.requestId)) ∧
        (200 ≤ r.status → r.status < 300 → classifyResponse r = .ok r.body) := by
  intro k server
  constructor
  · simp only [HTTPClient.post]
    exact congrArg classifyResponse (retrySend_final server totalRetries 0)
  · intro r
    refine ⟨?_, ?_, ?_, ?_⟩
    · intro h
      rcases h with h | h <;> simp [classifyResponse, h]
    · intro h
      simp [classifyResponse, h]
    · intro h1 h2 h3 h4
      have c1 : ¬ (200 ≤ r.status ∧ r.status < 300) := by omega
      have c2 : ¬ (r.status = 401 ∨ r.status = 403) := by
        rintro (hc | hc)
        · exact h2 hc
        · exact h3 hc
      simp only [classifyResponse, if_neg c1, if_neg c2, if_neg h4, if_pos h1]
    · intro h1 h2
      simp only [classifyResponse, if_pos (And.intro h1 h2)]

/-- Witness for C4 at concrete 401, 422, 500 and 200 responses. -/
theorem post_classifies_final_response_witness :
    ((401 : Nat) = 401 ∨ (401 : Nat) = 403) ∧
    classifyResponse ⟨401, [1], some "Invalid API key", none, none⟩ =
      .error (.authenticationError "Invalid API key") ∧
    classifyResponse ⟨422, [], some "Validation failed", some [("f", ["e"])], none⟩ =
      .error (.validationError "Validation failed" [("f", ["e"])]) ∧
    classifyResponse ⟨500, [2], none, none, some "req-1"⟩ =
      .error (.apiError "API error" 500 [2] (some "req-1")) ∧
    classifyResponse ⟨200, [3], none, none, none⟩ = .ok [3] := by
  refine ⟨Or.inl rfl, ?_, ?_, ?_, ?_⟩
  · exact ((post_classifies_final_response "k" (fun _ => ⟨200, [], none, none, none⟩)).2
      ⟨401, [1], some "Invalid API key", none, none⟩).1 (Or.inl rfl)
  · exact ((post_classifies_final_response "k" (fun _ => ⟨200, [], none, none, none⟩)).2
      ⟨422, [], some "Validation failed", some [("f", ["e"])], none⟩).2.1 rfl
  · exact ((post_classifies_final_response "k" (fun _ => ⟨200, [], none, none, none⟩)).2
      ⟨500, [2], none, none, some "req-1"⟩).2.2.1 (by norm_num) (by norm_num)
      (by norm_num) (by norm_num)
  · exact ((post_classifies_final_response "k" (fun _ => ⟨200, [], none, none, none⟩)).2
      ⟨200, [3], none, none, none⟩).2.2.2 (by norm_num) (by norm_num)

theorem retrySend_all_retry (server : Nat → HttpResponse)
    (h : ∀ n, (server n).status ∈ retryStatuses) :
    ∀ (r a : Nat), (retrySend server a r).1 = a + r + 1 := by
  intro r
  induction r with
  | zero =>
    intro a
    simp [retrySend]
  | succ n ih =>
    intro a
    simp only [retrySend, if_pos (h a)]
    rw [ih (a + 1)]
    omega

/-- C5: the transport retries exactly the statuses 429/500/502/503/504,
up to 3 additional attempts with exponential backoff of base factor 1
second; the status sequence 500, 502, 200 returns the 200 body after
exactly 3 attempts (sleeping 1s then 2s); any other 4xx status fails on
the first attempt with no retry. -/
theorem retry_policy_behavior :
    (∀ (k : String) (server : Nat → HttpResponse) (body : Bytes),
      (server 0).status = 500 → (server 1).status = 502 →
      (server 2).status = 200 → (server 2).body = body →
      HTTPClient.post (some k) server =
        { attempts := 3, sleeps := [1, 2], result := .ok body }) ∧
    (∀ (k : String) (server : Nat → HttpResponse) (s : Nat), s ∈ retryStatuses →
      (∀ n, (server n).status = s) →
      (HTTPClient.post (some k) server).attempts = 1 + totalRetries) ∧
    (∀ (k : String) (server : Nat → HttpResponse),
      400 ≤ (server 0).status → (server 0).status < 500 →
      (server 0).status ∉ retryStatuses →
      (HTTPClient.post (some k) server).attempts = 1 ∧
      (HTTPClient.post (some k) server).result = classifyResponse (server 0)) := by
  refine ⟨?_, ?_, ?_⟩
  · intro k server body h0 h1 h2 hb
    have e0 : (server 0).status ∈ retryStatuses := by
      rw [h0]
      decide
    have e1 : (server 1).status ∈ retryStatuses := by
      rw [h1]
      decide
    have e2 : ¬ (server 2).status ∈ retryStatuses := by
      rw [h2]
      decide
    have hr : retrySend server 0 3 =
        (3, [backoffFactor * 2 ^ 0, backoffFactor * 2 ^ 1], server 2) := by
      simp [retrySend, e0, e1, e2]
    simp only [HTTPClient.post, totalRetries, hr]
    have hclass : classifyResponse (server 2) = .ok body := by
      simp [classifyResponse, h2, hb]
    simp [hclass, backoffFactor]
  · intro k server s hs hall
    have h : ∀ n, (server n).status ∈ retryStatuses := fun n => by
      rw [hall n]
      exact hs
    simp only [HTTPClient.post]
    rw [retrySend_all_retry server h totalRetries 0]
    omega
  · intro k server h1 h2 h3
    have e0 : ¬ (server 0).status ∈ retryStatuses := h3
    constructor
    · simp [HTTPClient.post, retrySend, if_neg e0, totalRetries]
    · simp [HTTPClient.post, retrySend, if_neg e0, totalRetries]

/-- Witness for C5: the 500/502/200 scenario, a constantly-503 server, and
a single 404. -/
theorem retry_policy_behavior_witness :
    HTTPClient.post (some "k")
        (fun n => if n = 0 then ⟨500, [], none, none, none⟩
          else if n = 1 then ⟨502, [], none, none, none⟩
          else ⟨200, [7, 8], none, none, none⟩) =
      { attempts := 3, sleeps := [1, 2], result := .ok [7, 8] } ∧
    (HTTPClient.post (some "k") (fun _ => ⟨503, [], none, none, none⟩)).attempts =
      1 + totalRetries ∧
    (HTTPClient.post (some "k") (fun _ => ⟨404, [], none, none, none⟩)).attempts = 1 ∧
    (HTTPClient.post (some "k") (fun _ => ⟨404, [], none, none, none⟩)).result =
      classifyResponse ⟨404, [], none, none, none⟩ := by
  refine ⟨?_, ?_, ?_, ?_⟩
  · exact retry_policy_behavior.1 "k"
      (fun n => if n = 0 then ⟨500, [], none, none, none⟩
        else if n = 1 then ⟨502, [], none, none, none⟩
        else ⟨200, [7, 8], none, none, none⟩) [7, 8] rfl rfl rfl rfl
  · exact retry_policy_behavior.2.1 "k" (fun _ => ⟨503, [], none, none, none⟩) 503
      (by decide) (fun _ => rfl)
  · exact (retry_policy_behavior.2.2 "k" (fun _ => ⟨404, [], none, none, none⟩)
      (by norm_num) (by norm_num) (by decide)).1
  · exact (retry_policy_behavior.2.2 "k" (fun _ => ⟨404, [], none, none, none⟩)
      (by norm_num) (by norm_num) (by decide)).2

end NDW
